import Mathlib

/-!
Verification development for the feather-agent repository.

The definitions below are a shallow embedding of the TypeScript sources:
configuration schemas (src/types/config.ts), the module registry
(src/core/registry.ts), the provider bootstrap (src/core/provider-loader.ts),
the config loader (src/core/config-loader.ts), abort utilities
(src/core/abort.ts) and the dashboard run handler (src/dashboard/server.ts).
The orchestrator core (retry executor, fallback and race composers, bounded
map, provider registry selection) is not part of the sources of this
repository snapshot; those components are modelled from the specification,
each such definition carrying a doc comment that starts with
Modelled from the spec.
-/

namespace Feather

/-- JSON-like values as consumed by the zod schemas; numbers are modelled as
rationals, matching the decimal literals found in configuration files. -/
inductive Json where
  | str (s : String)
  | num (q : ℚ)
  | jbool (b : Bool)
  | null
  | arr (items : List Json)
  | obj (fields : List (String × Json))

/-- Lookup of an object field by key; JSON objects have unique keys, so the
first match is the field value. -/
def lookupField : List (String × Json) → String → Option Json
  | [], _ => none
  | (k, v) :: rest, key => if k = key then some v else lookupField rest key

/-- Parse of an optional string field, as z.string().optional(): an absent
field yields none, a string field yields its value, and any other present
value is a validation failure. -/
def parseOptionalString (fields : List (String × Json)) (key : String) :
    Option (Option String) :=
  match lookupField fields key with
  | none => some none
  | some (Json.str s) => some (some s)
  | some _ => none

/-- Parse of an optional number field, as z.number().optional(). -/
def parseOptionalNumber (fields : List (String × Json)) (key : String) :
    Option (Option ℚ) :=
  match lookupField fields key with
  | none => some none
  | some (Json.num q) => some (some q)
  | some _ => none

/-- JS Boolean coercion of a string-or-undefined value: undefined and the
empty string are falsy, every other string is truthy. -/
def truthyString : Option String → Bool
  | none => false
  | some s => if s = "" then false else true

/-- Embedding of a parsed ModuleReferenceBaseSchema value from
src/types/config.ts: builtin, module and export are optional strings and
options is an arbitrary optional value. The export field is named exportName
because export is reserved in Lean. -/
structure ModuleReferenceBase where
  builtin : Option String
  module : Option String
  exportName : Option String
  options : Option Json

/-- Embedding of moduleReferenceRefinement from src/types/config.ts: the
refinement adds an issue exactly when the JS Boolean coercions of the builtin
and module fields coincide, i.e. unless exactly one of them is truthy. -/
def moduleReferenceRefinement (b m : Option String) : Bool :=
  truthyString b == truthyString m

/-- Parse of ModuleReferenceBaseSchema: the input must be an object and each
declared field must parse; unknown keys are stripped, following the default
zod object semantics. -/
def parseModuleReferenceBase (j : Json) : Option ModuleReferenceBase :=
  match j with
  | Json.obj fields => do
      let b ← parseOptionalString fields "builtin"
      let m ← parseOptionalString fields "module"
      let e ← parseOptionalString fields "export"
      pure { builtin := b, module := m, exportName := e,
             options := lookupField fields "options" }
  | _ => none

/-- Parse of ModuleReferenceSchema, i.e. the base schema followed by the
superRefine step: a reference whose refinement raises an issue is rejected. -/
def parseModuleReference (j : Json) : Option ModuleReferenceBase :=
  match parseModuleReferenceBase j with
  | none => none
  | some r =>
      if moduleReferenceRefinement r.builtin r.module then none else some r

/-- Outcome of ModuleRegistry.create at the point where the embedding stops:
either a registered builtin factory is invoked or a module import is started
for the given specifier. -/
inductive CreateOutcome where
  | usedBuiltin (name : String)
  | loadModule (specifier : String)

/-- Embedding of the dispatch logic of ModuleRegistry.create from
src/core/registry.ts: a truthy builtin must name a registered builtin factory
and otherwise a truthy module path is required; the dynamic import, the
factory invocation and the assert hook lie beyond this boundary and are not
modelled. -/
def moduleRegistryCreate (knownBuiltins : List String)
    (ref : ModuleReferenceBase) : Except String CreateOutcome :=
  if truthyString ref.builtin then
    let name := ref.builtin.getD ""
    if knownBuiltins.contains name then
      Except.ok (CreateOutcome.usedBuiltin name)
    else
      Except.error ("Unknown builtin " ++ name)
  else if truthyString ref.module then
    Except.ok (CreateOutcome.loadModule (ref.module.getD ""))
  else
    Except.error "reference must specify either a builtin or module path"

/-- Embedding of a parsed ModelSchema value from src/types/config.ts. -/
structure ModelConfig where
  name : String
  aliases : Option (List String)
  inputPer1K : Option ℚ
  outputPer1K : Option ℚ
  capabilities : Option (List String)

/-- Capability names admitted by the ModelSchema capabilities enum. -/
def capabilityNames : List String := ["chat", "stream", "json", "tools"]

/-- Parse of an array of strings, as z.array(z.string()). -/
def parseStringArray (j : Json) : Option (List String) :=
  match j with
  | Json.arr items =>
      items.mapM (fun x => match x with | Json.str s => some s | _ => none)
  | _ => none

/-- Parse of an optional array-of-strings field. -/
def parseOptionalStringArray (fields : List (String × Json)) (key : String) :
    Option (Option (List String)) :=
  match lookupField fields key with
  | none => some none
  | some v => (parseStringArray v).map some

/-- Parse of the optional capabilities field: each entry must be one of the
four capability enum names. -/
def parseOptionalCapabilities (fields : List (String × Json)) :
    Option (Option (List String)) :=
  match parseOptionalStringArray fields "capabilities" with
  | none => none
  | some none => some none
  | some (some caps) =>
      if caps.all (fun c => capabilityNames.contains c) then some (some caps)
      else none

/-- Parse of ModelSchema: name is a required string, the remaining fields are
optional. -/
def parseModelConfig (j : Json) : Option ModelConfig :=
  match j with
  | Json.obj fields => do
      let n ← match lookupField fields "name" with
        | some (Json.str s) => some s
        | _ => none
      let al ← parseOptionalStringArray fields "aliases"
      let inp ← parseOptionalNumber fields "inputPer1K"
      let out ← parseOptionalNumber fields "outputPer1K"
      let caps ← parseOptionalCapabilities fields
      pure { name := n, aliases := al, inputPer1K := inp, outputPer1K := out,
             capabilities := caps }
  | _ => none

/-- Embedding of the optional pricing object of ProviderDefinitionSchema. -/
structure Pricing where
  inputPer1K : Option ℚ
  outputPer1K : Option ℚ

/-- Parse of the pricing object: both fields optional numbers. -/
def parsePricing (j : Json) : Option Pricing :=
  match j with
  | Json.obj fields => do
      let inp ← parseOptionalNumber fields "inputPer1K"
      let out ← parseOptionalNumber fields "outputPer1K"
      pure { inputPer1K := inp, outputPer1K := out }
  | _ => none

/-- Embedding of a parsed ProviderDefinitionSchema value: the module reference
base extended with provider fields; models defaults to the empty list. -/
structure ProviderDefinition where
  builtin : Option String
  module : Option String
  exportName : Option String
  options : Option Json
  apiKeyEnv : Option String
  baseUrl : Option String
  pricing : Option Pricing
  models : List ModelConfig

/-- Parse of ProviderDefinitionSchema, i.e. extendModuleReference applied to
the provider fields: the extended object is parsed and then the module
reference refinement is re-applied. -/
def parseProviderDefinition (j : Json) : Option ProviderDefinition :=
  match j with
  | Json.obj fields => do
      let b ← parseOptionalString fields "builtin"
      let m ← parseOptionalString fields "module"
      let e ← parseOptionalString fields "export"
      let ak ← parseOptionalString fields "apiKeyEnv"
      let bu ← parseOptionalString fields "baseUrl"
      let pr ← match lookupField fields "pricing" with
        | none => some none
        | some v => (parsePricing v).map some
      let ms ← match lookupField fields "models" with
        | none => some []
        | some v => match v with
            | Json.arr items => items.mapM parseModelConfig
            | _ => none
      if moduleReferenceRefinement b m then none
      else
        pure { builtin := b, module := m, exportName := e,
               options := lookupField fields "options", apiKeyEnv := ak,
               baseUrl := bu, pricing := pr, models := ms }
  | _ => none

/-- Parse of a zod record whose values follow the given schema: the input must
be an object and every field value must parse. -/
def parseRecordOf {α : Type} (p : Json → Option α) (j : Json) :
    Option (List (String × α)) :=
  match j with
  | Json.obj fields => fields.mapM (fun kv => (p kv.2).map (fun a => (kv.1, a)))
  | _ => none

/-- Provider selection policy from the providers section. -/
inductive Policy where
  | cheapest
  | roundrobin
  | first
deriving DecidableEq

/-- Parse of the policy enum from ProvidersSectionSchema. -/
def parsePolicy (j : Json) : Option Policy :=
  match j with
  | Json.str "cheapest" => some Policy.cheapest
  | Json.str "roundrobin" => some Policy.roundrobin
  | Json.str "first" => some Policy.first
  | _ => none

/-- Canonical JSON spelling of a policy value. -/
def policyJson : Policy → Json
  | Policy.cheapest => Json.str "cheapest"
  | Policy.roundrobin => Json.str "roundrobin"
  | Policy.first => Json.str "first"

/-- Embedding of a parsed ProvidersSectionSchema value. -/
structure ProvidersSection where
  policy : Option Policy
  entries : List (String × ProviderDefinition)

/-- Parse of ProvidersSectionSchema from src/types/config.ts: an object with
an optional policy enum and an entries record defaulting to the empty record;
unknown keys are stripped, following the default zod object semantics. -/
def parseProvidersSection (j : Json) : Option ProvidersSection :=
  match j with
  | Json.obj fields => do
      let pol ← match lookupField fields "policy" with
        | none => some none
        | some v => (parsePolicy v).map some
      let ent ← match lookupField fields "entries" with
        | none => some []
        | some v => parseRecordOf parseProviderDefinition v
      pure { policy := pol, entries := ent }
  | _ => none

/-- Parsed value of the providers union of FeatherProjectConfigSchema: either
the sectioned form or the legacy record of provider definitions. -/
inductive ProvidersValue where
  | sectioned (s : ProvidersSection)
  | legacy (entries : List (String × ProviderDefinition))

/-- Parse of the providers union from FeatherProjectConfigSchema: zod tries
the union members in order, so the sectioned form wins whenever it parses and
the legacy record form is used otherwise. -/
def parseProvidersValue (j : Json) : Option ProvidersValue :=
  match parseProvidersSection j with
  | some s => some (ProvidersValue.sectioned s)
  | none => (parseRecordOf parseProviderDefinition j).map ProvidersValue.legacy

/-- Normalised providers configuration from src/core/config-loader.ts. -/
structure NormalisedProviders where
  policy : Option Policy
  entries : List (String × ProviderDefinition)

/-- Embedding of normaliseProviders from src/core/config-loader.ts. The
source tests whether the input has an entries property: a sectioned value
always does, and a legacy record does exactly when a provider entry is named
entries. On that last path the source produces an ill-typed record whose
policy and entries fields are provider definitions; the embedding reports it
as none. -/
def normaliseProviders : ProvidersValue → Option NormalisedProviders
  | ProvidersValue.sectioned s => some { policy := s.policy, entries := s.entries }
  | ProvidersValue.legacy r =>
      if (r.map Prod.fst).contains "entries" then none
      else some { policy := none, entries := r }

/-- Modelled from the spec: the ProviderRegistry constructor (the source file
src/providers/registry.ts is not part of this snapshot) defaults the selection
policy to first when the configuration omits it. -/
def effectivePolicy (p : Option Policy) : Policy := p.getD Policy.first

/-- Modelled from the spec: a binding is a provider key and concrete model
name together with its price table (src/providers/registry.ts is not part of
this snapshot). -/
structure Binding where
  providerKey : String
  model : String
  inputPer1K : Option ℚ
  outputPer1K : Option ℚ
deriving DecidableEq

/-- Modelled from the spec: the cost used by the cheapest policy is the sum
inputPer1K plus outputPer1K, an absent price counting as zero. -/
def bindingCost (b : Binding) : ℚ := b.inputPer1K.getD 0 + b.outputPer1K.getD 0

/-- Modelled from the spec: registry state, mapping each logical model name to
its bindings in registration order, with a round-robin cursor per name. -/
structure ProviderRegistryState where
  policy : Policy
  index : List (String × List Binding)
  cursors : List (String × Nat)

/-- Fresh registry under the given policy. -/
def emptyRegistry (policy : Policy) : ProviderRegistryState :=
  { policy := policy, index := [], cursors := [] }

/-- Lookup of the binding list registered under a logical name. -/
def lookupBindings (idx : List (String × List Binding)) (name : String) :
    Option (List Binding) :=
  match idx with
  | [] => none
  | (k, bs) :: rest => if k = name then some bs else lookupBindings rest name

/-- Append of a binding at the end of the list registered under a logical
name, creating the entry when the name is new; registration order is
preserved. -/
def indexAppend (idx : List (String × List Binding)) (name : String)
    (b : Binding) : List (String × List Binding) :=
  match idx with
  | [] => [(name, [b])]
  | (k, bs) :: rest =>
      if k = name then (k, bs ++ [b]) :: rest
      else (k, bs) :: indexAppend rest name b

/-- Modelled from the spec: registering one model appends a binding for its
concrete name and for every alias. -/
def registerModel (key : String) (idx : List (String × List Binding))
    (m : ModelConfig) : List (String × List Binding) :=
  (m.name :: m.aliases.getD []).foldl
    (fun acc logical =>
      indexAppend acc logical
        { providerKey := key, model := m.name, inputPer1K := m.inputPer1K,
          outputPer1K := m.outputPer1K })
    idx

/-- Modelled from the spec: ProviderRegistry.add registers every model of a
provider entry in order. -/
def registryAdd (r : ProviderRegistryState) (key : String)
    (models : List ModelConfig) : ProviderRegistryState :=
  { r with index := models.foldl (registerModel key) r.index }

/-- Modelled from the spec: the cheapest selection returns the binding with
minimum cost, ties broken in favour of the earlier registration. -/
def cheapestBinding : List Binding → Option Binding
  | [] => none
  | b :: rest =>
      match cheapestBinding rest with
      | none => some b
      | some c => if bindingCost c < bindingCost b then some c else some b

/-- Round-robin cursor of a logical name, zero when never used. -/
def cursorOf (cursors : List (String × Nat)) (name : String) : Nat :=
  match cursors with
  | [] => 0
  | (k, c) :: rest => if k = name then c else cursorOf rest name

/-- Advance of the round-robin cursor of a logical name. -/
def setCursor (cursors : List (String × Nat)) (name : String) (c : Nat) :
    List (String × Nat) :=
  match cursors with
  | [] => [(name, c)]
  | (k, v) :: rest =>
      if k = name then (k, c) :: rest else (k, v) :: setCursor rest name c

/-- Modelled from the spec: ProviderRegistry.resolve selects a binding for a
logical name according to the policy; an unknown name yields none, which the
orchestrator surfaces as a ConfigError. -/
def registryResolve (r : ProviderRegistryState) (name : String) :
    Option (Binding × ProviderRegistryState) :=
  match lookupBindings r.index name with
  | none => none
  | some [] => none
  | some bs =>
      match r.policy with
      | Policy.first => bs.head?.map (fun b => (b, r))
      | Policy.cheapest => (cheapestBinding bs).map (fun b => (b, r))
      | Policy.roundrobin =>
          let c := cursorOf r.cursors name
          (bs.get? (c % bs.length)).map
            (fun b => (b, { r with cursors := setCursor r.cursors name (c + 1) }))

/-- Embedding of buildProviders from src/core/provider-loader.ts: each
configured provider entry is instantiated through the module registry (the
instantiation itself is a dynamic import outside this embedding) and its
models are registered with a ProviderRegistry constructed under the
configured policy. -/
def buildProviders (entries : List (String × ProviderDefinition))
    (policy : Option Policy) : ProviderRegistryState :=
  entries.foldl (fun r kv => registryAdd r kv.1 kv.2.models)
    (emptyRegistry (effectivePolicy policy))

/-- Error taxonomy of section 7 of the specification. -/
inductive ErrorKind where
  | clientError
  | authError
  | rateLimited
  | serverError
  | networkError
  | timeout
  | canceled
  | breakerOpen
  | configError
  | allFailed
deriving DecidableEq

/-- Retryability of each error kind, from the taxonomy table. -/
def ErrorKind.retryable : ErrorKind → Bool
  | ErrorKind.rateLimited => true
  | ErrorKind.serverError => true
  | ErrorKind.networkError => true
  | ErrorKind.timeout => true
  | _ => false

/-- Classified error as surfaced by the orchestrator: a kind, a message and an
optional retry-after hint in milliseconds. -/
structure ClassifiedError where
  kind : ErrorKind
  message : String
  retryAfterMs : Option ℚ
deriving DecidableEq

/-- Outcome of a single attempt against one spec or provider. -/
inductive AttemptResult (A : Type) where
  | success (a : A)
  | failure (e : ClassifiedError)

/-- Jitter mode of the retry policy. -/
inductive Jitter where
  | noJitter
  | full
deriving DecidableEq

/-- Retry policy, defaulting per the spec to three attempts, base 1000 ms,
cap 10000 ms, full jitter. -/
structure RetryPolicy where
  maxAttempts : Nat
  baseMs : ℚ
  maxMs : ℚ
  jitter : Jitter

/-- Modelled from the spec: raw exponential backoff for the 1-indexed attempt
k is the doubling series capped at maxMs. -/
def rawBackoff (p : RetryPolicy) (k : Nat) : ℚ :=
  min p.maxMs (p.baseMs * 2 ^ (k - 1))

/-- Modelled from the spec: the sleep for a raw backoff value; with full
jitter the sleep is a uniform draw from the interval from zero to raw,
represented by a draw u in the unit interval scaling raw, and without jitter
the sleep is raw itself. -/
def jitteredSleep (p : RetryPolicy) (u : ℚ) (raw : ℚ) : ℚ :=
  match p.jitter with
  | Jitter.noJitter => raw
  | Jitter.full => u * raw

/-- Modelled from the spec: when the error carries a retry-after hint the
delay used is the maximum of the computed delay and the hint. -/
def delayWithHint (delay : ℚ) (retryAfterMs : Option ℚ) : ℚ :=
  match retryAfterMs with
  | none => delay
  | some ra => max delay ra

/-- Modelled from the spec: one step of the retry executor. The outcome of
each 1-indexed attempt is given by the attempts function and the jitter draw
before each sleep by the draws function; the executor runs the attempt, then
either returns (success, non-retryable error, or attempts exhausted) or
records the backoff sleep for this attempt and retries. Returns the final
outcome together with the list of sleeps performed, in order. -/
def retryGo {A : Type} (p : RetryPolicy) (attempts : Nat → AttemptResult A)
    (draws : Nat → ℚ) (k : Nat) : Nat → AttemptResult A × List ℚ
  | 0 => (attempts k, [])
  | 1 => (attempts k, [])
  | remaining + 2 =>
      match attempts k with
      | AttemptResult.success a => (AttemptResult.success a, [])
      | AttemptResult.failure e =>
          if e.kind.retryable then
            let d := delayWithHint (jitteredSleep p (draws k) (rawBackoff p k))
              e.retryAfterMs
            let rec_ := retryGo p attempts draws (k + 1) (remaining + 1)
            (rec_.1, d :: rec_.2)
          else
            (AttemptResult.failure e, [])

/-- Modelled from the spec: the retry executor starts at attempt 1 with
maxAttempts attempts available. -/
def retryRun {A : Type} (p : RetryPolicy) (attempts : Nat → AttemptResult A)
    (draws : Nat → ℚ) : AttemptResult A × List ℚ :=
  retryGo p attempts draws 1 p.maxAttempts

/-- Modelled from the spec: the fallback composer tries the outcome of each
spec in order and returns the first success; when every spec fails it returns
the last classified error, not an aggregate, and every error kind, including
BreakerOpen and ConfigError, advances the chain to the next spec. An empty
spec list yields none. -/
def fallbackRun {A : Type} : List (AttemptResult A) → Option (AttemptResult A)
  | [] => none
  | AttemptResult.success a :: _ => some (AttemptResult.success a)
  | AttemptResult.failure e :: rest =>
      match fallbackRun rest with
      | none => some (AttemptResult.failure e)
      | some r => some r

/-- Result of the race composer: either the first observed success together
with the sibling indices cancelled by the win, or the collected sibling
errors when every sibling fails. -/
inductive RaceOutcome (A : Type) where
  | won (a : A) (cancelled : List Nat)
  | allFailed (causes : List (Nat × ClassifiedError))

/-- Modelled from the spec: the race composer observes sibling completions in
the order given (the completion order seen by the orchestrator, tagged with
the sibling index). Sibling errors observed before a success are suppressed,
being logged only; the first observed success wins and the siblings that have
not completed yet are cancelled. When every sibling fails the outcome is
AllFailed carrying the collected errors (here in observation order; the
success path settled by the claims does not depend on that order). -/
def raceGo {A : Type} (acc : List (Nat × ClassifiedError)) :
    List (Nat × AttemptResult A) → RaceOutcome A
  | [] => RaceOutcome.allFailed acc
  | (_, AttemptResult.success a) :: rest =>
      RaceOutcome.won a (rest.map Prod.fst)
  | (i, AttemptResult.failure e) :: rest => raceGo (acc ++ [(i, e)]) rest

/-- Modelled from the spec: race over a list of observed sibling completions
starts with no suppressed errors. -/
def raceRun {A : Type} (obs : List (Nat × AttemptResult A)) : RaceOutcome A :=
  raceGo [] obs

/-- Modelled from the spec: the bounded fan-out map stores the result of each
item at the index of that item. Completion order is abstracted by the order
in which item indices finish, which bounded concurrency may permute but which
never changes the index at which a result is stored; the result slots start
empty and each completion of index i writes fn applied to the i-th item into
slot i. -/
def mapAssemble {A B : Type} (xs : List A) (fn : A → B) (order : List Nat) :
    List (Option B) :=
  order.foldl
    (fun res i =>
      match xs.get? i with
      | some x => res.set i (some (fn x))
      | none => res)
    (List.replicate xs.length none)

/-- Modelled from the spec: the map composer returns the assembled results in
input order once every slot has been filled. -/
def mapRun {A B : Type} (xs : List A) (fn : A → B) (order : List Nat) :
    Option (List B) :=
  (mapAssemble xs fn order).mapM id

/-- JS error value as seen by createAbortError: a name, a message, whether the
value is a DOMException instance, and an optional cause. Heap identity is
modelled by structural equality of this representation; DOMException values
are Error instances in Node 18, so every JsError models an Error. -/
inductive JsError : Type where
  | mk : String → String → Bool → Option JsError → JsError

/-- Name of a JS error value. -/
def JsError.name : JsError → String
  | JsError.mk n _ _ _ => n

/-- Message of a JS error value. -/
def JsError.message : JsError → String
  | JsError.mk _ m _ _ => m

/-- Whether a JS error value is a DOMException instance. -/
def JsError.isDOMException : JsError → Bool
  | JsError.mk _ _ d _ => d

/-- Cause of a JS error value. -/
def JsError.cause : JsError → Option JsError
  | JsError.mk _ _ _ c => c

/-- Embedding of createAbortError from src/core/abort.ts. The argument models
the reason when it is an Error instance and is none for any non-Error reason.
An AbortError DOMException is returned as is; any other Error is wrapped in a
new AbortError DOMException whose message is the original message unless that
message is empty, in which case the literal Aborted is used, and whose cause
is the original error; a non-Error reason yields a plain AbortError. -/
def createAbortError (reason : Option JsError) : JsError :=
  match reason with
  | some e =>
      if e.isDOMException && e.name == "AbortError" then e
      else
        JsError.mk "AbortError"
          (if e.message = "" then "Aborted" else e.message) true (some e)
  | none => JsError.mk "AbortError" "Aborted" true none

/-- State of an abort signal: whether it is aborted and, when aborted, its
reason. The platform guarantees the reason of an aborted signal is populated
at abort time. -/
structure AbortSignalState (R : Type) where
  aborted : Bool
  reason : Option R

/-- Platform semantics of AbortController.abort with an explicit reason: a
second abort is a no-op, so an already aborted signal keeps its original
state and reason. -/
def abortControllerAbort {R : Type} (s : AbortSignalState R) (r : Option R) :
    AbortSignalState R :=
  if s.aborted then s else { aborted := true, reason := r }

/-- System state around forwardAbortSignal: the source signal, the target
controller signal, and whether the forwarding abort listener is attached to
the source. -/
structure ForwardSystem (R : Type) where
  source : AbortSignalState R
  target : AbortSignalState R
  listenerAttached : Bool

/-- Embedding of forwardAbortSignal from src/core/abort.ts for a present
source: an already aborted source aborts the target immediately with the
source reason and attaches nothing; otherwise a once-listener is attached to
the source. An absent source is the identity and attaches nothing. -/
def forwardAbortSignal {R : Type} (sys : ForwardSystem R) : ForwardSystem R :=
  if sys.source.aborted then
    { sys with target := abortControllerAbort sys.target sys.source.reason }
  else
    { sys with listenerAttached := true }

/-- Abort of the source signal after forwarding was installed: the platform
marks the source aborted with the given reason and fires the attached abort
listeners once; the installed listener aborts the target with the source
reason unless the target is already aborted. A second source abort is a
no-op. -/
def fireSourceAbort {R : Type} (sys : ForwardSystem R) (r : R) :
    ForwardSystem R :=
  if sys.source.aborted then sys
  else
    let src : AbortSignalState R := { aborted := true, reason := some r }
    if sys.listenerAttached then
      { source := src,
        target :=
          if sys.target.aborted then sys.target
          else { aborted := true, reason := some r },
        listenerAttached := false }
    else
      { sys with source := src }

/-- Embedding of the cleanup function returned by forwardAbortSignal: it
detaches the forwarding listener from the source. -/
def cleanupForward {R : Type} (sys : ForwardSystem R) : ForwardSystem R :=
  { sys with listenerAttached := false }

/-- Process environment, as a total map from variable names to an optional
value. -/
def EnvMap : Type := String → Option String

/-- Setting of one environment variable. -/
def envSet (env : EnvMap) (k v : String) : EnvMap :=
  fun q => if q = k then some v else env q

/-- Deletion of one environment variable. -/
def envDelete (env : EnvMap) (k : String) : EnvMap :=
  fun q => if q = k then none else env q

/-- Writing back a recorded previous value: a recorded string is restored via
assignment and a recorded absence via delete, as in the finally block of
handleRunAgent. -/
def envRestoreOne (env : EnvMap) (k : String) (w : Option String) : EnvMap :=
  match w with
  | some s => envSet env k s
  | none => envDelete env k

/-- Embedding of the apiKeys loop of handleRunAgent from
src/dashboard/server.ts: for each supplied key in order, the previous value
of the variable is recorded, then the variable is set when the supplied value
is truthy and deleted when it is falsy (the empty string). Returns the
mutated environment and the recorded previous values in iteration order. -/
def applyApiKeys : EnvMap → List (String × String) →
    EnvMap × List (String × Option String)
  | env, [] => (env, [])
  | env, (k, v) :: rest =>
      let prev := (k, env k)
      let env1 := if v = "" then envDelete env k else envSet env k v
      let res := applyApiKeys env1 rest
      (res.1, prev :: res.2)

/-- Embedding of the finally block of handleRunAgent: every recorded variable
is restored, in recording order, to its previous value or previous absence. -/
def restoreEnv : EnvMap → List (String × Option String) → EnvMap
  | env, [] => env
  | env, (k, w) :: rest => restoreEnv (envRestoreOne env k w) rest

/-- Embedding of handleRunAgent from src/dashboard/server.ts around the agent
run: the api keys are applied to the environment, the agent runs against the
mutated environment (the run, which may return a result or throw, is
abstracted by the given function), and the finally block restores the
environment on both paths. Returns the run outcome and the final
environment. -/
def handleRunAgent (env : EnvMap) (apiKeys : List (String × String))
    (run : EnvMap → Except String String) :
    Except String String × EnvMap :=
  let applied := applyApiKeys env apiKeys
  (run applied.1, restoreEnv applied.1 applied.2)

/-! Theorems. -/

/-- Helper: createAbortError returns an AbortError DOMException argument
unchanged. -/
theorem createAbortError_of_abortError (e : JsError)
    (hd : e.isDOMException = true) (hn : e.name = "AbortError") :
    createAbortError (some e) = e := by
  cases e with
  | mk n m d c =>
      simp only [JsError.isDOMException] at hd
      simp only [JsError.name] at hn
      simp [createAbortError, JsError.isDOMException, JsError.name, hd, hn]

/-- Helper: the result of createAbortError is always a DOMException whose
name is AbortError. -/
theorem createAbortError_name_dom (r : Option JsError) :
    (createAbortError r).name = "AbortError"
    ∧ (createAbortError r).isDOMException = true := by
  cases r with
  | none => exact ⟨rfl, rfl⟩
  | some e =>
      cases e with
      | mk n m d c =>
          by_cases hd : d = true
          · by_cases hn : n = "AbortError"
            · subst hd; subst hn
              exact ⟨rfl, rfl⟩
            · constructor <;>
                simp [createAbortError, JsError.name, JsError.isDOMException, hn]
          · have hd0 : d = false := by
              cases d
              · rfl
              · exact absurd rfl hd
            constructor <;>
              simp [createAbortError, JsError.name, JsError.isDOMException, hd0]

/-- Claim C9, as stated, is false on the code: an Error whose message is the
empty string is wrapped with the fallback message Aborted rather than with
the original (empty) message, because the source computes
reason.message or-else Aborted. -/
theorem c9_counterexample :
    (createAbortError (some (JsError.mk "Error" "" false none))).message = "Aborted"
    ∧ (JsError.mk "Error" "" false none).message = ""
    ∧ ("Aborted" : String) ≠ "" := by
  refine ⟨rfl, rfl, by decide⟩

/-- Claim C9 (amended): createAbortError always returns a DOMException whose
name is AbortError; when the reason is already an AbortError DOMException
that very value is returned unchanged, so the function is idempotent; and
when the reason is any other Error the result carries that error's message
when it is non-empty (the literal Aborted otherwise) and the original error
as its cause. -/
theorem c9_createAbortError (r : Option JsError) :
    (createAbortError r).name = "AbortError"
    ∧ (createAbortError r).isDOMException = true
    ∧ createAbortError (some (createAbortError r)) = createAbortError r
    ∧ (∀ e : JsError, r = some e → e.isDOMException = true →
        e.name = "AbortError" → createAbortError r = e)
    ∧ (∀ e : JsError, r = some e →
        ¬(e.isDOMException = true ∧ e.name = "AbortError") →
        (createAbortError r).message =
          (if e.message = "" then "Aborted" else e.message)
        ∧ (createAbortError r).cause = some e) := by
  obtain ⟨hname, hdom⟩ := createAbortError_name_dom r
  refine ⟨hname, hdom, createAbortError_of_abortError _ hdom hname, ?_, ?_⟩
  · intro e hre hd hn
    subst hre
    exact createAbortError_of_abortError e hd hn
  · intro e hre hno
    subst hre
    cases e with
    | mk n m d c =>
        simp only [JsError.isDOMException, JsError.name] at hno
        by_cases hd : d = true
        · have hn : ¬ n = "AbortError" := fun hn => hno ⟨hd, hn⟩
          constructor <;>
            simp [createAbortError, JsError.message, JsError.cause,
              JsError.isDOMException, JsError.name, hd, hn]
        · have hd0 : d = false := by
            cases d
            · rfl
            · exact absurd rfl hd
          constructor <;>
            simp [createAbortError, JsError.message, JsError.cause,
              JsError.isDOMException, JsError.name, hd0]

/-- Witness for the amended claim C9 at a concrete non-AbortError reason. -/
theorem c9_witness :
    (createAbortError (some (JsError.mk "TypeError" "boom" false none))).message = "boom"
    ∧ (createAbortError (some (JsError.mk "TypeError" "boom" false none))).cause
        = some (JsError.mk "TypeError" "boom" false none) := by
  have h := (c9_createAbortError (some (JsError.mk "TypeError" "boom" false none))).2.2.2.2
    (JsError.mk "TypeError" "boom" false none) rfl (by simp [JsError.isDOMException])
  simpa using h

/-- Claim C6: forwarding an abort signal into a target controller aborts the
target with exactly the source reason when the source is already aborted or
later becomes aborted; a target that is already aborted is left unchanged;
and the returned cleanup detaches the forwarding listener so a later source
abort no longer reaches the target. -/
theorem c6_forwardAbortSignal {R : Type} (sys : ForwardSystem R) :
    (sys.source.aborted = true → sys.target.aborted = false →
      (forwardAbortSignal sys).target.aborted = true
      ∧ (forwardAbortSignal sys).target.reason = sys.source.reason)
    ∧ (sys.source.aborted = true → sys.target.aborted = true →
      (forwardAbortSignal sys).target = sys.target)
    ∧ (sys.source.aborted = false → ∀ r : R,
        (sys.target.aborted = false →
          (fireSourceAbort (forwardAbortSignal sys) r).target.aborted = true
          ∧ (fireSourceAbort (forwardAbortSignal sys) r).target.reason = some r
          ∧ (fireSourceAbort (forwardAbortSignal sys) r).source.reason = some r)
        ∧ (sys.target.aborted = true →
          (fireSourceAbort (forwardAbortSignal sys) r).target = sys.target))
    ∧ (sys.source.aborted = false → ∀ r : R,
        (fireSourceAbort (cleanupForward (forwardAbortSignal sys)) r).target
          = sys.target) := by
  refine ⟨?_, ?_, ?_, ?_⟩
  · intro hs ht
    simp [forwardAbortSignal, hs, abortControllerAbort, ht]
  · intro hs ht
    simp [forwardAbortSignal, hs, abortControllerAbort, ht]
  · intro hs r
    constructor
    · intro ht
      simp [forwardAbortSignal, hs, fireSourceAbort, ht]
    · intro ht
      simp [forwardAbortSignal, hs, fireSourceAbort, ht]
  · intro hs r
    simp [forwardAbortSignal, hs, cleanupForward, fireSourceAbort]

/-- Witness for claim C6: a fresh source and target, where the source aborts
after forwarding with reason 7 and the target receives exactly that reason. -/
theorem c6_witness :
    ((⟨⟨false, none⟩, ⟨false, none⟩, false⟩ : ForwardSystem Nat).source.aborted = false)
    ∧ (fireSourceAbort
        (forwardAbortSignal (⟨⟨false, none⟩, ⟨false, none⟩, false⟩ : ForwardSystem Nat))
        7).target.reason = some 7 := by
  refine ⟨rfl, ?_⟩
  exact (((c6_forwardAbortSignal
    (⟨⟨false, none⟩, ⟨false, none⟩, false⟩ : ForwardSystem Nat)).2.2.1 rfl 7).1 rfl).2.1

/-- Claim C10: ModuleReferenceSchema accepts a reference exactly when it
names one of builtin or module (a provided value being an empty string counts
as unspecified, per the JS Boolean coercion used by the refinement), and a
reference specifying both or neither is rejected; at instantiation time
ModuleRegistry.create throws when a truthy builtin is not registered, and
throws when neither a truthy builtin nor a truthy module path is supplied. -/
theorem c10_moduleReference (j : Json) (builtins : List String) :
    (∀ r, parseModuleReference j = some r →
        (truthyString r.builtin = true ∧ truthyString r.module = false)
        ∨ (truthyString r.builtin = false ∧ truthyString r.module = true))
    ∧ (∀ r, parseModuleReferenceBase j = some r →
        truthyString r.builtin = truthyString r.module →
        parseModuleReference j = none)
    ∧ (∀ r : ModuleReferenceBase,
        truthyString r.builtin = true →
        builtins.contains (r.builtin.getD "") = false →
        ∃ msg, moduleRegistryCreate builtins r = Except.error msg)
    ∧ (∀ r : ModuleReferenceBase,
        truthyString r.builtin = false → truthyString r.module = false →
        ∃ msg, moduleRegistryCreate builtins r = Except.error msg) := by
  refine ⟨?_, ?_, ?_, ?_⟩
  · intro r hr
    unfold parseModuleReference at hr
    cases hb : parseModuleReferenceBase j with
    | none => rw [hb] at hr; exact absurd hr (by simp)
    | some r0 =>
        rw [hb] at hr
        dsimp only at hr
        by_cases href : moduleReferenceRefinement r0.builtin r0.module = true
        · rw [if_pos href] at hr
          exact absurd hr (by simp)
        · rw [if_neg href] at hr
          have hr0 : r0 = r := by
            have := hr
            simpa using this
          subst hr0
          unfold moduleReferenceRefinement at href
          cases hbt : truthyString r0.builtin <;>
            cases hmt : truthyString r0.module <;> simp_all
  · intro r hr hsame
    unfold parseModuleReference
    rw [hr]
    dsimp only
    have : moduleReferenceRefinement r.builtin r.module = true := by
      unfold moduleReferenceRefinement
      rw [hsame]
      simp
    rw [if_pos this]
  · intro r hb hnc
    refine ⟨"Unknown builtin " ++ r.builtin.getD "", ?_⟩
    unfold moduleRegistryCreate
    rw [hb]
    simp only [hnc]
    simp
  · intro r hb hm
    refine ⟨"reference must specify either a builtin or module path", ?_⟩
    unfold moduleRegistryCreate
    rw [hb, hm]
    simp

/-- Witness for claim C10: a reference specifying both builtin and module is
rejected by the schema, and a reference with an unregistered builtin fails at
instantiation time. -/
theorem c10_witness :
    parseModuleReference
      (Json.obj [("builtin", Json.str "a"), ("module", Json.str "b")]) = none
    ∧ ∃ msg, moduleRegistryCreate []
        { builtin := some "x", module := none, exportName := none, options := none }
        = Except.error msg := by
  constructor
  · exact (c10_moduleReference
      (Json.obj [("builtin", Json.str "a"), ("module", Json.str "b")]) []).2.1
      { builtin := some "a", module := some "b", exportName := none, options := none }
      rfl rfl
  · exact (c10_moduleReference (Json.obj []) []).2.2.1
      { builtin := some "x", module := none, exportName := none, options := none }
      rfl rfl

/-- Helper: fallback returns the first success, whatever failures precede
it. -/
theorem fallbackRun_first_success {A : Type} (a : A)
    (post : List (AttemptResult A)) :
    ∀ pre : List ClassifiedError,
      fallbackRun (pre.map AttemptResult.failure ++ AttemptResult.success a :: post)
        = some (AttemptResult.success a)
  | [] => rfl
  | e :: pre => by
      have ih := fallbackRun_first_success a post pre
      simp only [List.map_cons, List.cons_append, fallbackRun, List.append_eq, ih]

/-- Helper: when every spec fails, fallback returns the last error. -/
theorem fallbackRun_all_fail {A : Type} :
    ∀ (errs : List ClassifiedError) (hne : errs ≠ []),
      fallbackRun (A := A) (errs.map AttemptResult.failure)
        = some (AttemptResult.failure (errs.getLast hne))
  | [], hne => absurd rfl hne
  | [e], _ => rfl
  | e :: e2 :: rest, _ => by
      have ih := fallbackRun_all_fail (A := A) (e2 :: rest) (by simp)
      simp only [List.map_cons, fallbackRun] at ih ⊢
      rw [ih]
      rfl

/-- Claim C3: the fallback composer tries the specs in order and returns the
first success; when every spec fails it returns the last classified error,
not an aggregate; and a failure of kind BreakerOpen or ConfigError never
halts the chain but advances it to the next spec. -/
theorem c3_fallback {A : Type} (pre : List ClassifiedError) (a : A)
    (post : List (AttemptResult A)) (errs : List ClassifiedError)
    (hne : errs ≠ []) :
    fallbackRun (pre.map AttemptResult.failure ++ AttemptResult.success a :: post)
      = some (AttemptResult.success a)
    ∧ (∀ (e : ClassifiedError) (rest : List (AttemptResult A))
        (r : AttemptResult A),
        (e.kind = ErrorKind.breakerOpen ∨ e.kind = ErrorKind.configError) →
        fallbackRun rest = some r →
        fallbackRun (AttemptResult.failure e :: rest) = some r)
    ∧ fallbackRun (A := A) (errs.map AttemptResult.failure)
      = some (AttemptResult.failure (errs.getLast hne)) := by
  refine ⟨fallbackRun_first_success a post pre, ?_, fallbackRun_all_fail errs hne⟩
  intro e rest r _ hrest
  simp only [fallbackRun, hrest]

/-- Witness for claim C3: a BreakerOpen failure followed by a success yields
the success, and a chain of two failures yields the last error. -/
theorem c3_witness :
    fallbackRun ([{ kind := ErrorKind.breakerOpen, message := "open", retryAfterMs := none }].map AttemptResult.failure ++ AttemptResult.success "ok" :: [])
      = some (AttemptResult.success "ok")
    ∧ fallbackRun (A := String)
        ([{ kind := ErrorKind.serverError, message := "s", retryAfterMs := none }, { kind := ErrorKind.configError, message := "c", retryAfterMs := none }].map AttemptResult.failure)
      = some (AttemptResult.failure { kind := ErrorKind.configError, message := "c", retryAfterMs := none }) := by
  have h := c3_fallback
    [{ kind := ErrorKind.breakerOpen, message := "open", retryAfterMs := none }]
    "ok" ([] : List (AttemptResult String))
    [{ kind := ErrorKind.serverError, message := "s", retryAfterMs := none }, { kind := ErrorKind.configError, message := "c", retryAfterMs := none }]
    (by simp)
  exact ⟨h.1, h.2.2⟩

/-- Helper: race returns the first observed success, whatever sibling errors
were observed before it and whatever the accumulated suppressed errors are. -/
theorem raceGo_first_success {A : Type} (a : A) (i : Nat)
    (post : List (Nat × AttemptResult A)) :
    ∀ (pre : List (Nat × ClassifiedError)) (acc : List (Nat × ClassifiedError)),
      raceGo acc (pre.map (fun p => (p.1, AttemptResult.failure p.2))
          ++ (i, AttemptResult.success a) :: post)
        = RaceOutcome.won a (post.map Prod.fst)
  | [], _ => rfl
  | p :: pre, acc => by
      have ih := raceGo_first_success a i post pre (acc ++ [(p.1, p.2)])
      simp only [List.map_cons, List.cons_append, raceGo, List.append_eq, ih]

/-- Claim C1: when some sibling completes successfully, the race composer
returns the first success in the order observed by the orchestrator, the
siblings that have not completed are cancelled, and no sibling error is
observable by the caller: the outcome carries only the winning response and
the cancelled indices, and it is unchanged under any rewriting of the sibling
errors observed before the win. -/
theorem c1_race {A : Type} (pre : List (Nat × ClassifiedError)) (i : Nat)
    (a : A) (post : List (Nat × AttemptResult A)) :
    raceRun (pre.map (fun p => (p.1, AttemptResult.failure p.2))
        ++ (i, AttemptResult.success a) :: post)
      = RaceOutcome.won a (post.map Prod.fst)
    ∧ ∀ g : ClassifiedError → ClassifiedError,
        raceRun (pre.map (fun p => (p.1, AttemptResult.failure (g p.2)))
            ++ (i, AttemptResult.success a) :: post)
          = RaceOutcome.won a (post.map Prod.fst) := by
  constructor
  · exact raceGo_first_success a i post pre []
  · intro g
    have h := raceGo_first_success a i post (pre.map (fun p => (p.1, g p.2))) []
    simpa [List.map_map, Function.comp] using h

/-- Helper: every sleep recorded by the retry executor corresponds to a
retryable failure of the attempt with the matching index and equals the
jittered, capped, hint-raised backoff for that attempt. -/
theorem retryGo_get? {A : Type} (p : RetryPolicy) (attempts : Nat → AttemptResult A)
    (draws : Nat → ℚ) :
    ∀ (remaining k i : Nat) (d : ℚ),
      (retryGo p attempts draws k remaining).2.get? i = some d →
      ∃ e : ClassifiedError,
        attempts (k + i) = AttemptResult.failure e
        ∧ e.kind.retryable = true
        ∧ d = delayWithHint
            (jitteredSleep p (draws (k + i)) (rawBackoff p (k + i)))
            e.retryAfterMs
  | 0, k, i, d => by
      intro h
      simp [retryGo] at h
  | 1, k, i, d => by
      intro h
      simp [retryGo] at h
  | remaining + 2, k, i, d => by
      intro h
      rw [show retryGo p attempts draws k (remaining + 2)
          = match attempts k with
            | AttemptResult.success a => (AttemptResult.success a, [])
            | AttemptResult.failure e =>
                if e.kind.retryable then
                  (
                    (retryGo p attempts draws (k + 1) (remaining + 1)).1,
                    delayWithHint (jitteredSleep p (draws k) (rawBackoff p k))
                        e.retryAfterMs
                      :: (retryGo p attempts draws (k + 1) (remaining + 1)).2)
                else (AttemptResult.failure e, [])
          from rfl] at h
      cases hak : attempts k with
      | success a =>
          rw [hak] at h
          simp at h
      | failure e =>
          rw [hak] at h
          dsimp only at h
          by_cases hr : e.kind.retryable = true
          · rw [if_pos hr] at h
            cases i with
            | zero =>
                simp only [List.get?] at h
                refine ⟨e, ?_, hr, ?_⟩
                · rw [Nat.add_zero]; exact hak
                · rw [Nat.add_zero]
                  exact (Option.some.injEq _ _).mp h |>.symm
            | succ i' =>
                simp only [List.get?] at h
                obtain ⟨e', he', hr', hd'⟩ :=
                  retryGo_get? p attempts draws (remaining + 1) (k + 1) i' d h
                refine ⟨e', ?_, hr', ?_⟩
                · rw [show k + (i' + 1) = k + 1 + i' by omega]; exact he'
                · rw [show k + (i' + 1) = k + 1 + i' by omega]; exact hd'
          · rw [if_neg hr] at h
            simp at h

/-- Claim C2: for every retry execution, the sleep recorded before retrying
the 1-indexed attempt k that failed with a retryable error is the raw backoff
min maxMs (baseMs times 2 to the k minus 1), jittered (with no jitter the
sleep is raw, with full jitter it is a draw scaling raw that stays within
zero and raw), and raised to the retry-after hint when present. -/
theorem c2_retry {A : Type} (p : RetryPolicy) (attempts : Nat → AttemptResult A)
    (draws : Nat → ℚ) (i : Nat) (d : ℚ)
    (hd : (retryRun p attempts draws).2.get? i = some d) :
    ∃ e : ClassifiedError,
      attempts (i + 1) = AttemptResult.failure e
      ∧ e.kind.retryable = true
      ∧ d = delayWithHint
          (jitteredSleep p (draws (i + 1)) (min p.maxMs (p.baseMs * 2 ^ i)))
          e.retryAfterMs
      ∧ (p.jitter = Jitter.noJitter →
          d = delayWithHint (min p.maxMs (p.baseMs * 2 ^ i)) e.retryAfterMs)
      ∧ (p.jitter = Jitter.full → 0 ≤ draws (i + 1) → draws (i + 1) ≤ 1 →
          0 ≤ min p.maxMs (p.baseMs * 2 ^ i) →
          0 ≤ jitteredSleep p (draws (i + 1)) (min p.maxMs (p.baseMs * 2 ^ i))
          ∧ jitteredSleep p (draws (i + 1)) (min p.maxMs (p.baseMs * 2 ^ i))
            ≤ min p.maxMs (p.baseMs * 2 ^ i)) := by
  obtain ⟨e, he, hr, hd'⟩ := retryGo_get? p attempts draws p.maxAttempts 1 i d hd
  rw [Nat.add_comm 1 i] at he hd'
  have hraw : rawBackoff p (i + 1) = min p.maxMs (p.baseMs * 2 ^ i) := rfl
  rw [hraw] at hd'
  refine ⟨e, he, hr, hd', ?_, ?_⟩
  · intro hj
    rw [hd']
    unfold jitteredSleep
    rw [hj]
  · intro hj hu0 hu1 hraw0
    unfold jitteredSleep
    rw [hj]
    exact ⟨mul_nonneg hu0 hraw0, mul_le_of_le_one_left hraw0 hu1⟩

/-- Witness for claim C2: with no jitter, base 100 ms and cap 1000 ms, the
first recorded sleep of a run whose attempts keep failing with a retryable
server error is 100 ms. -/
theorem c2_witness :
    (retryRun { maxAttempts := 3, baseMs := 100, maxMs := 1000, jitter := Jitter.noJitter }
        (fun _ => AttemptResult.failure (A := String) { kind := ErrorKind.serverError, message := "boom", retryAfterMs := none })
        (fun _ => 0)).2.get? 0 = some 100
    ∧ ∃ e : ClassifiedError,
        (fun _ : Nat => AttemptResult.failure (A := String) { kind := ErrorKind.serverError, message := "boom", retryAfterMs := none }) (0 + 1)
          = AttemptResult.failure e
        ∧ e.kind.retryable = true
        ∧ (100 : ℚ) = delayWithHint
            (jitteredSleep { maxAttempts := 3, baseMs := 100, maxMs := 1000, jitter := Jitter.noJitter }
              ((fun _ : Nat => (0 : ℚ)) (0 + 1))
              (min (1000 : ℚ) (100 * 2 ^ 0)))
            e.retryAfterMs := by
  have hget : (retryRun { maxAttempts := 3, baseMs := 100, maxMs := 1000, jitter := Jitter.noJitter }
      (fun _ => AttemptResult.failure (A := String) { kind := ErrorKind.serverError, message := "boom", retryAfterMs := none })
      (fun _ => 0)).2.get? 0 = some 100 := by
    simp [retryRun, retryGo, ErrorKind.retryable, delayWithHint, jitteredSleep,
      rawBackoff]
    decide
  refine ⟨hget, ?_⟩
  obtain ⟨e, he, hr, hd', _, _⟩ := c2_retry
    { maxAttempts := 3, baseMs := 100, maxMs := 1000, jitter := Jitter.noJitter }
    (fun _ => AttemptResult.failure (A := String) { kind := ErrorKind.serverError, message := "boom", retryAfterMs := none })
    (fun _ => 0) 0 100 hget
  exact ⟨e, he, hr, hd'⟩

/-- Helper: one completion step of the bounded map worker pool. -/
def mapStep {A B : Type} (xs : List A) (fn : A → B)
    (res : List (Option B)) (i : Nat) : List (Option B) :=
  match xs.get? i with
  | some x => res.set i (some (fn x))
  | none => res

/-- Helper: a completion step preserves the length of the result slots. -/
theorem mapStep_length {A B : Type} (xs : List A) (fn : A → B)
    (res : List (Option B)) (i : Nat) :
    (mapStep xs fn res i).length = res.length := by
  unfold mapStep
  cases xs.get? i with
  | none => rfl
  | some x => exact List.length_set res i (some (fn x))

/-- Helper: slots already storing the result of a completed index are stable
under further completions, and untouched slots keep their content. -/
theorem mapFold_get? {A B : Type} (xs : List A) (fn : A → B) :
    ∀ (order : List Nat) (res : List (Option B)) (i : Nat),
      res.length = xs.length →
      (∀ x, xs.get? i = some x → i ∈ order →
        (order.foldl (mapStep xs fn) res).get? i = some (some (fn x)))
      ∧ (i ∉ order →
        (order.foldl (mapStep xs fn) res).get? i = res.get? i)
  | [], res, i, _ => by
      constructor
      · intro x _ hmem
        exact absurd hmem (List.not_mem_nil i)
      · intro _
        rfl
  | j :: rest, res, i, hlen => by
      have hlen' : (mapStep xs fn res j).length = xs.length := by
        rw [mapStep_length]; exact hlen
      have ih := mapFold_get? xs fn rest (mapStep xs fn res j) i hlen'
      constructor
      · intro x hx hmem
        by_cases hir : i ∈ rest
        · exact ih.1 x hx hir
        · have hij : i = j := by
            rcases List.mem_cons.mp hmem with h | h
            · exact h
            · exact absurd h hir
          subst hij
          rw [List.foldl_cons]
          rw [ih.2 hir]
          unfold mapStep
          rw [hx]
          have hi : i < res.length := by
            rw [hlen]
            by_contra hge
            rw [List.get?_eq_none.mpr (Nat.le_of_not_lt hge)] at hx
            exact Option.noConfusion hx
          rw [List.get?_set_eq]
          cases hres : res.get? i with
          | none =>
              rw [List.get?_eq_none] at hres
              exact absurd hres (Nat.not_le_of_lt hi)
          | some w => simp
      · intro hni
        have hij : i ≠ j := fun h => hni (h ▸ List.mem_cons_self j rest)
        have hir : i ∉ rest := fun h => hni (List.mem_cons_of_mem j h)
        rw [List.foldl_cons, ih.2 hir]
        unfold mapStep
        cases xs.get? j with
        | none => rfl
        | some x => exact List.get?_set_ne _ _ (fun h => hij h.symm)

/-- Helper: the assembled slots have the length of the input list. -/
theorem mapAssemble_length {A B : Type} (xs : List A) (fn : A → B)
    (order : List Nat) : (mapAssemble xs fn order).length = xs.length := by
  unfold mapAssemble
  have : ∀ (ord : List Nat) (res : List (Option B)),
      (ord.foldl (fun r i => match xs.get? i with
        | some x => r.set i (some (fn x))
        | none => r) res).length = res.length := by
    intro ord
    induction ord with
    | nil => intro res; rfl
    | cons j rest ih =>
        intro res
        rw [List.foldl_cons, ih]
        show (mapStep xs fn res j).length = res.length
        exact mapStep_length xs fn res j

  rw [this, List.length_replicate]

/-- Helper: mapping some over a list and sequencing recovers the list. -/
theorem mapM_id_map_some {A B : Type} (fn : A → B) :
    ∀ xs : List A, (xs.map (fun x => some (fn x))).mapM id = some (xs.map fn)
  | [] => rfl
  | x :: xs => by
      rw [List.map_cons, List.mapM_cons, mapM_id_map_some fn xs]
      rfl

/-- Claim C4: for every input list, every function and every completion order
that covers exactly the valid indices (bounded concurrency permutes completion
order but never the index at which a result is stored), the map composer
returns the results in input order; in particular, for a pure function it
returns the pointwise image of the input list. -/
theorem c4_map {A B : Type} (xs : List A) (fn : A → B) (order : List Nat)
    (horder : ∀ i, i ∈ order ↔ i < xs.length) :
    mapRun xs fn order = some (xs.map fn) := by
  have hslots : mapAssemble xs fn order = xs.map (fun x => some (fn x)) := by
    apply List.ext_get?
    intro i
    by_cases hi : i < xs.length
    · obtain ⟨x, hx⟩ : ∃ x, xs.get? i = some x := by
        cases hx : xs.get? i with
        | none =>
            rw [List.get?_eq_none] at hx
            exact absurd hx (Nat.not_le_of_lt hi)
        | some x => exact ⟨x, rfl⟩
      have h1 := (mapFold_get? xs fn order (List.replicate xs.length none) i
        (List.length_replicate _ _)).1 x hx ((horder i).mpr hi)
      unfold mapAssemble
      rw [show (order.foldl (fun r j => match xs.get? j with
          | some y => r.set j (some (fn y))
          | none => r) (List.replicate xs.length none))
        = order.foldl (mapStep xs fn) (List.replicate xs.length none) from rfl]
      rw [h1, List.get?_map, hx]
      rfl
    · have h1 : (mapAssemble xs fn order).get? i = none := by
        rw [List.get?_eq_none, mapAssemble_length]
        exact Nat.le_of_not_lt hi
      have h2 : (xs.map (fun x => some (fn x))).get? i = none := by
        rw [List.get?_eq_none, List.length_map]
        exact Nat.le_of_not_lt hi
      rw [h1, h2]
  unfold mapRun
  rw [hslots]
  exact mapM_id_map_some fn xs

/-- Witness for claim C4: three items completed in the order 2, 0, 1 still
yield the results in input order. -/
theorem c4_witness :
    (∀ i, i ∈ [2, 0, 1] ↔ i < [10, 20, 30].length)
    ∧ mapRun [10, 20, 30] (fun x => x + 1) [2, 0, 1] = some [11, 21, 31] := by
  have horder : ∀ i, i ∈ [2, 0, 1] ↔ i < [10, 20, 30].length := by
    intro i
    simp only [List.mem_cons, List.not_mem_nil, or_false, List.length_cons,
      List.length_nil]
    omega
  exact ⟨horder, c4_map [10, 20, 30] (fun x => x + 1) [2, 0, 1] horder⟩

/-- Helper: the cheapest selection returns a member of the list that attains
the minimum cost and is the first to attain it: everything registered before
it costs strictly more. -/
theorem cheapestBinding_spec :
    ∀ (l : List Binding) (b : Binding), cheapestBinding l = some b →
      b ∈ l ∧ (∀ c ∈ l, bindingCost b ≤ bindingCost c)
      ∧ ∃ pre post, l = pre ++ b :: post
          ∧ ∀ c ∈ pre, bindingCost b < bindingCost c
  | [], b => by intro h; exact absurd h (by simp [cheapestBinding])
  | x :: rest, b => by
      intro h
      rw [show cheapestBinding (x :: rest)
          = match cheapestBinding rest with
            | none => some x
            | some c => if bindingCost c < bindingCost x then some c else some x
        from rfl] at h
      cases hr : cheapestBinding rest with
      | none =>
          rw [hr] at h
          have hb : x = b := by simpa using h
          subst hb
          have hrest : rest = [] := by
            cases rest with
            | nil => rfl
            | cons y ys =>
                exfalso
                unfold cheapestBinding at hr
                cases hys : cheapestBinding ys <;> rw [hys] at hr <;>
                  simp at hr <;> split at hr <;> simp_all
          subst hrest
          refine ⟨List.mem_singleton_self x, ?_, [], [], rfl, ?_⟩
          · intro c hc
            rw [List.mem_singleton] at hc
            subst hc
            exact le_refl _
          · intro c hc
            exact absurd hc (List.not_mem_nil c)
      | some c =>
          rw [hr] at h
          dsimp only at h
          obtain ⟨hmem, hmin, pre, post, hdec, hpre⟩ :=
            cheapestBinding_spec rest c hr
          by_cases hlt : bindingCost c < bindingCost x
          · rw [if_pos hlt] at h
            have hcb : c = b := by simpa using h
            subst hcb
            refine ⟨List.mem_cons_of_mem x hmem, ?_, x :: pre, post, ?_, ?_⟩
            · intro d hd
              rcases List.mem_cons.mp hd with hd | hd
              · subst hd; exact le_of_lt hlt
              · exact hmin d hd
            · rw [hdec, List.cons_append]
            · intro d hd
              rcases List.mem_cons.mp hd with hd | hd
              · subst hd; exact hlt
              · exact hpre d hd
          · rw [if_neg hlt] at h
            have hxb : x = b := by simpa using h
            subst hxb
            refine ⟨List.mem_cons_self x rest, ?_, [], rest, rfl, ?_⟩
            · intro d hd
              rcases List.mem_cons.mp hd with hd | hd
              · subst hd; exact le_refl _
              · exact le_trans (le_of_not_lt hlt) (hmin d hd)
            · intro d hd
              exact absurd hd (List.not_mem_nil d)

/-- Helper: the cheapest selection succeeds on a non-empty list. -/
theorem cheapestBinding_isSome :
    ∀ (l : List Binding), l ≠ [] → ∃ b, cheapestBinding l = some b
  | [], h => absurd rfl h
  | x :: rest, _ => by
      unfold cheapestBinding
      cases cheapestBinding rest with
      | none => exact ⟨x, rfl⟩
      | some c =>
          by_cases hlt : bindingCost c < bindingCost x
          · exact ⟨c, by simp [hlt]⟩
          · exact ⟨x, by simp [hlt]⟩

/-- Helper: registering models never changes the policy of the registry. -/
theorem buildProviders_policy (entries : List (String × ProviderDefinition))
    (policy : Option Policy) :
    (buildProviders entries policy).policy = effectivePolicy policy := by
  unfold buildProviders
  have : ∀ (es : List (String × ProviderDefinition)) (r : ProviderRegistryState),
      (es.foldl (fun r kv => registryAdd r kv.1 kv.2.models) r).policy = r.policy := by
    intro es
    induction es with
    | nil => intro r; rfl
    | cons e rest ih =>
        intro r
        rw [List.foldl_cons, ih]
        rfl
  rw [this]
  rfl

/-- Claim C5: in a registry built under the cheapest policy, resolving a
logical name registered with at least one binding returns the binding with
minimum inputPer1K plus outputPer1K among the bindings of that name, ties
broken by registration order (everything registered before the winner costs
strictly more), and registry state is unchanged. -/
theorem c5_cheapest (entries : List (String × ProviderDefinition))
    (name : String) (l : List Binding)
    (hl : lookupBindings (buildProviders entries (some Policy.cheapest)).index name
        = some l)
    (hne : l ≠ []) :
    ∃ b, registryResolve (buildProviders entries (some Policy.cheapest)) name
        = some (b, buildProviders entries (some Policy.cheapest))
      ∧ b ∈ l ∧ (∀ c ∈ l, bindingCost b ≤ bindingCost c)
      ∧ ∃ pre post, l = pre ++ b :: post
          ∧ ∀ c ∈ pre, bindingCost b < bindingCost c := by
  obtain ⟨b, hb⟩ := cheapestBinding_isSome l hne
  obtain ⟨hmem, hmin, pre, post, hdec, hpre⟩ := cheapestBinding_spec l b hb
  refine ⟨b, ?_, hmem, hmin, pre, post, hdec, hpre⟩
  unfold registryResolve
  rw [hl]
  have hpol : (buildProviders entries (some Policy.cheapest)).policy
      = Policy.cheapest := buildProviders_policy entries (some Policy.cheapest)
  cases l with
  | nil => exact absurd rfl hne
  | cons x rest =>
      dsimp only
      rw [hpol, hb]
      rfl

/-- Witness for claim C5: providers A (input price 0.03) and B (input price
0.001), both aliasing fast, built under the cheapest policy; resolution of
fast dispatches to the binding of B. -/
theorem c5_witness :
    lookupBindings
      (buildProviders
        [("A", { builtin := some "openai", module := none, exportName := none, options := none, apiKeyEnv := none, baseUrl := none, pricing := none, models := [{ name := "gpt-4", aliases := some ["fast"], inputPer1K := some (3 / 100), outputPer1K := none, capabilities := none }] }),
         ("B", { builtin := some "anthropic", module := none, exportName := none, options := none, apiKeyEnv := none, baseUrl := none, pricing := none, models := [{ name := "claude", aliases := some ["fast"], inputPer1K := some (1 / 1000), outputPer1K := none, capabilities := none }] })]
        (some Policy.cheapest)).index "fast"
      = some [{ providerKey := "A", model := "gpt-4", inputPer1K := some (3 / 100), outputPer1K := none }, { providerKey := "B", model := "claude", inputPer1K := some (1 / 1000), outputPer1K := none }]
    ∧ (∃ b, registryResolve
        (buildProviders
          [("A", { builtin := some "openai", module := none, exportName := none, options := none, apiKeyEnv := none, baseUrl := none, pricing := none, models := [{ name := "gpt-4", aliases := some ["fast"], inputPer1K := some (3 / 100), outputPer1K := none, capabilities := none }] }),
           ("B", { builtin := some "anthropic", module := none, exportName := none, options := none, apiKeyEnv := none, baseUrl := none, pricing := none, models := [{ name := "claude", aliases := some ["fast"], inputPer1K := some (1 / 1000), outputPer1K := none, capabilities := none }] })]
          (some Policy.cheapest)) "fast"
        = some (b, buildProviders
          [("A", { builtin := some "openai", module := none, exportName := none, options := none, apiKeyEnv := none, baseUrl := none, pricing := none, models := [{ name := "gpt-4", aliases := some ["fast"], inputPer1K := some (3 / 100), outputPer1K := none, capabilities := none }] }),
           ("B", { builtin := some "anthropic", module := none, exportName := none, options := none, apiKeyEnv := none, baseUrl := none, pricing := none, models := [{ name := "claude", aliases := some ["fast"], inputPer1K := some (1 / 1000), outputPer1K := none, capabilities := none }] })]
          (some Policy.cheapest))
        ∧ b ∈ [{ providerKey := "A", model := "gpt-4", inputPer1K := some (3 / 100), outputPer1K := none }, { providerKey := "B", model := "claude", inputPer1K := some (1 / 1000), outputPer1K := none }]
        ∧ (∀ c ∈ [({ providerKey := "A", model := "gpt-4", inputPer1K := some (3 / 100), outputPer1K := none } : Binding), { providerKey := "B", model := "claude", inputPer1K := some (1 / 1000), outputPer1K := none }], bindingCost b ≤ bindingCost c)
        ∧ ∃ pre post,
            [({ providerKey := "A", model := "gpt-4", inputPer1K := some (3 / 100), outputPer1K := none } : Binding), { providerKey := "B", model := "claude", inputPer1K := some (1 / 1000), outputPer1K := none }]
              = pre ++ b :: post
            ∧ ∀ c ∈ pre, bindingCost b < bindingCost c)
    ∧ (cheapestBinding [{ providerKey := "A", model := "gpt-4", inputPer1K := some (3 / 100), outputPer1K := none }, { providerKey := "B", model := "claude", inputPer1K := some (1 / 1000), outputPer1K := none }]).map Binding.providerKey
      = some "B" := by
  have hl : lookupBindings
      (buildProviders
        [("A", { builtin := some "openai", module := none, exportName := none, options := none, apiKeyEnv := none, baseUrl := none, pricing := none, models := [{ name := "gpt-4", aliases := some ["fast"], inputPer1K := some (3 / 100), outputPer1K := none, capabilities := none }] }),
         ("B", { builtin := some "anthropic", module := none, exportName := none, options := none, apiKeyEnv := none, baseUrl := none, pricing := none, models := [{ name := "claude", aliases := some ["fast"], inputPer1K := some (1 / 1000), outputPer1K := none, capabilities := none }] })]
        (some Policy.cheapest)).index "fast"
      = some [{ providerKey := "A", model := "gpt-4", inputPer1K := some (3 / 100), outputPer1K := none }, { providerKey := "B", model := "claude", inputPer1K := some (1 / 1000), outputPer1K := none }] := by
    rfl
  refine ⟨hl, c5_cheapest _ "fast" _ hl (by simp), ?_⟩
  have hcheap : cheapestBinding [{ providerKey := "A", model := "gpt-4", inputPer1K := some (3 / 100), outputPer1K := none }, { providerKey := "B", model := "claude", inputPer1K := some (1 / 1000), outputPer1K := none }]
      = some { providerKey := "B", model := "claude", inputPer1K := some (1 / 1000), outputPer1K := none } := by
    norm_num [cheapestBinding, bindingCost]
  rw [hcheap]
  rfl

/-- Helper: the recorded previous values carry exactly the supplied keys, in
order. -/
theorem applyApiKeys_keys (env : EnvMap) :
    ∀ ks : List (String × String),
      (applyApiKeys env ks).2.map Prod.fst = ks.map Prod.fst
  | [] => rfl
  | (k, v) :: rest => by
      unfold applyApiKeys
      simp only [List.map_cons]
      rw [applyApiKeys_keys _ rest]

/-- Helper: keys not supplied are untouched by the apiKeys loop. -/
theorem applyApiKeys_not_mem (env : EnvMap) :
    ∀ (ks : List (String × String)) (q : String), q ∉ ks.map Prod.fst →
      (applyApiKeys env ks).1 q = env q
  | [], _, _ => rfl
  | (k, v) :: rest, q, hq => by
      have hqk : q ≠ k := fun h => hq (by simp [h])
      have hqr : q ∉ rest.map Prod.fst := fun h => hq (by simp [h])
      unfold applyApiKeys
      dsimp only
      rw [applyApiKeys_not_mem _ rest q hqr]
      by_cases hv : v = "" <;> simp [hv, envDelete, envSet, hqk]

/-- Helper: restoring two distinct variables commutes. -/
theorem envRestoreOne_swap (e : EnvMap) (k k2 : String) (w w2 : Option String)
    (h : k ≠ k2) :
    envRestoreOne (envRestoreOne e k w) k2 w2
      = envRestoreOne (envRestoreOne e k2 w2) k w := by
  funext q
  unfold envRestoreOne envSet envDelete
  cases w <;> cases w2 <;> by_cases h1 : q = k2 <;> by_cases h2 : q = k <;>
    simp_all

/-- Helper: restoring a variable that the recorded list does not mention can
be pulled out of the restore loop. -/
theorem restoreEnv_restoreOne_comm :
    ∀ (prev : List (String × Option String)) (e : EnvMap) (k : String)
      (w : Option String), k ∉ prev.map Prod.fst →
      restoreEnv (envRestoreOne e k w) prev
        = envRestoreOne (restoreEnv e prev) k w
  | [], _, _, _, _ => rfl
  | (k2, w2) :: rest, e, k, w, hk => by
      have hkk2 : k ≠ k2 := fun h => hk (by simp [h])
      have hkr : k ∉ rest.map Prod.fst := fun h => hk (by simp [h])
      unfold restoreEnv
      rw [envRestoreOne_swap e k k2 w w2 hkk2]
      exact restoreEnv_restoreOne_comm rest (envRestoreOne e k2 w2) k w hkr

/-- Helper: restoring the recorded previous value of a variable after the
loop mutated only that variable recovers the original environment. -/
theorem envRestoreOne_recover (env X : EnvMap) (k : String)
    (hX : ∀ q, q ≠ k → X q = env q) :
    envRestoreOne X k (env k) = env := by
  funext q
  unfold envRestoreOne envSet envDelete
  by_cases hq : q = k
  · subst hq
    cases henv : env q <;> simp [henv]
  · cases henv : env k <;> simp [hq, hX q hq]

/-- Helper: with distinct keys, the finally block of handleRunAgent restores
the environment exactly. -/
theorem applyApiKeys_restore (env : EnvMap) :
    ∀ ks : List (String × String), (ks.map Prod.fst).Nodup →
      restoreEnv (applyApiKeys env ks).1 (applyApiKeys env ks).2 = env
  | [], _ => rfl
  | (k, v) :: rest, hnd => by
      have hk : k ∉ rest.map Prod.fst := by
        rw [List.map_cons] at hnd
        exact (List.nodup_cons.mp hnd).1
      have hndr : (rest.map Prod.fst).Nodup := by
        rw [List.map_cons] at hnd
        exact (List.nodup_cons.mp hnd).2
      unfold applyApiKeys
      dsimp only
      rw [show restoreEnv (applyApiKeys (if v = "" then envDelete env k else envSet env k v) rest).1
            ((k, env k) :: (applyApiKeys (if v = "" then envDelete env k else envSet env k v) rest).2)
          = restoreEnv
            (envRestoreOne (applyApiKeys (if v = "" then envDelete env k else envSet env k v) rest).1 k (env k))
            (applyApiKeys (if v = "" then envDelete env k else envSet env k v) rest).2
        from rfl]
      rw [restoreEnv_restoreOne_comm _ _ k (env k)
        (by rw [applyApiKeys_keys]; exact hk)]
      rw [applyApiKeys_restore (if v = "" then envDelete env k else envSet env k v) rest hndr]
      apply envRestoreOne_recover
      intro q hq
      by_cases hv : v = "" <;> simp [hv, envDelete, envSet, hq]

/-- Helper: with distinct keys, each supplied variable holds the supplied
value, or is absent when the supplied value is falsy, once the apiKeys loop
has run. -/
theorem applyApiKeys_get (env : EnvMap) :
    ∀ ks : List (String × String), (ks.map Prod.fst).Nodup →
      ∀ k v, (k, v) ∈ ks →
        (applyApiKeys env ks).1 k = if v = "" then none else some v
  | [], _, k, _, h => absurd h (List.not_mem_nil _)
  | (k0, v0) :: rest, hnd, k, v, hmem => by
      have hnd2 := hnd
      rw [List.map_cons] at hnd2
      have hnd' := List.nodup_cons.mp hnd2
      unfold applyApiKeys
      dsimp only
      rcases List.mem_cons.mp hmem with h | h
      · injection h with hk hv
        subst hk
        subst hv
        rw [applyApiKeys_not_mem _ rest k hnd'.1]
        by_cases hv0 : v = "" <;> simp [hv0, envDelete, envSet]
      · exact applyApiKeys_get _ rest hnd'.2 k v h

/-- Claim C7: for every request carrying an apiKeys map with distinct names,
each named environment variable is set to the supplied value, or removed when
the value is falsy, before the agent runs; variables not named are untouched;
and after the run completes, whether it returns or throws, every variable is
restored to its exact prior value or prior absence. -/
theorem c7_handleRunAgent (env : EnvMap) (apiKeys : List (String × String))
    (run : EnvMap → Except String String)
    (hnd : (apiKeys.map Prod.fst).Nodup) :
    (∀ k v, (k, v) ∈ apiKeys →
        (applyApiKeys env apiKeys).1 k = if v = "" then none else some v)
    ∧ (∀ q, q ∉ apiKeys.map Prod.fst → (applyApiKeys env apiKeys).1 q = env q)
    ∧ (∀ q, (handleRunAgent env apiKeys run).2 q = env q)
    ∧ (handleRunAgent env apiKeys run).1 = run (applyApiKeys env apiKeys).1 := by
  refine ⟨applyApiKeys_get env apiKeys hnd, applyApiKeys_not_mem env apiKeys,
    ?_, rfl⟩
  intro q
  have h := applyApiKeys_restore env apiKeys hnd
  unfold handleRunAgent
  dsimp only
  rw [h]

/-- Witness for claim C7: two keys, one truthy and one falsy, are applied to
a concrete environment and the final environment after a throwing run equals
the original. -/
theorem c7_witness :
    (([("OPENAI_API_KEY", "sk-test"), ("EMPTY_KEY", "")] : List (String × String)).map Prod.fst).Nodup
    ∧ (applyApiKeys (fun q => if q = "PATH" then some "/bin" else none)
        [("OPENAI_API_KEY", "sk-test"), ("EMPTY_KEY", "")]).1 "OPENAI_API_KEY"
      = some "sk-test"
    ∧ (handleRunAgent (fun q => if q = "PATH" then some "/bin" else none)
        [("OPENAI_API_KEY", "sk-test"), ("EMPTY_KEY", "")]
        (fun _ => Except.error "boom")).2 "OPENAI_API_KEY" = none := by
  have hnd : (([("OPENAI_API_KEY", "sk-test"), ("EMPTY_KEY", "")] : List (String × String)).map Prod.fst).Nodup := by
    decide
  have h := c7_handleRunAgent (fun q => if q = "PATH" then some "/bin" else none)
    [("OPENAI_API_KEY", "sk-test"), ("EMPTY_KEY", "")]
    (fun _ => Except.error "boom") hnd
  refine ⟨hnd, ?_, ?_⟩
  · have h1 := h.1 "OPENAI_API_KEY" "sk-test" (by simp)
    simpa using h1
  · have h2 := h.2.2.1 "OPENAI_API_KEY"
    rw [h2]
    simp

/-- Helper: the policy enum parses only its three canonical spellings. -/
theorem parsePolicy_eq (j : Json) (p : Policy) (h : parsePolicy j = some p) :
    j = policyJson p := by
  unfold parsePolicy at h
  split at h
  · cases h; rfl
  · cases h; rfl
  · cases h; rfl
  · exact absurd h (by simp)

/-- Claim C8, as stated, is false on the code: a providers object whose
policy field holds a value other than the three enum strings can still be
accepted, because the providers union falls back to the legacy record form
whenever every field value parses as a provider definition; here the policy
field holds a provider definition and the whole object validates, policy
becoming a provider entry named policy. -/
theorem c8_counterexample :
    (parseProvidersValue
        (Json.obj [("policy", Json.obj [("builtin", Json.str "openai")])])).isSome
      = true
    ∧ parsePolicy (Json.obj [("builtin", Json.str "openai")]) = none
    ∧ ((parseProvidersValue
        (Json.obj [("policy", Json.obj [("builtin", Json.str "openai")])])).bind
          normaliseProviders).isSome = true := by
  exact ⟨rfl, rfl, rfl⟩

/-- Claim C8 (amended): the sectioned providers schema accepts the policy
field only when it is one of the strings cheapest, roundrobin or first (any
other value makes the sectioned parse fail, acceptance then being possible
only through the legacy record form, where policy is a provider entry name),
and when the field is omitted the policy of the registry built from the
normalised configuration defaults to first. -/
theorem c8_policy (fields : List (String × Json)) (s : ProvidersSection)
    (hp : parseProvidersSection (Json.obj fields) = some s) :
    (lookupField fields "policy" = none ∧ s.policy = none
      ∨ ∃ p, lookupField fields "policy" = some (policyJson p) ∧ s.policy = some p)
    ∧ normaliseProviders (ProvidersValue.sectioned s)
        = some { policy := s.policy, entries := s.entries }
    ∧ (s.policy = none →
        (buildProviders s.entries s.policy).policy = Policy.first) := by
  refine ⟨?_, rfl, ?_⟩
  · unfold parseProvidersSection at hp
    dsimp only at hp
    cases hlk : lookupField fields "policy" with
    | none =>
        rw [hlk] at hp
        dsimp only at hp
        left
        refine ⟨rfl, ?_⟩
        cases hent : lookupField fields "entries" with
        | none =>
            rw [hent] at hp
            injection hp with h
            rw [← h]
        | some w =>
            rw [hent] at hp
            dsimp only at hp
            cases hrec : parseRecordOf parseProviderDefinition w with
            | none =>
                rw [hrec] at hp
                exact absurd hp (by simp)
            | some ent =>
                rw [hrec] at hp
                injection hp with h
                rw [← h]
    | some v =>
        rw [hlk] at hp
        dsimp only at hp
        cases hpv : parsePolicy v with
        | none =>
            rw [hpv] at hp
            exact absurd hp (by simp)
        | some p =>
            rw [hpv] at hp
            dsimp only [Option.map] at hp
            right
            refine ⟨p, by rw [parsePolicy_eq v p hpv], ?_⟩
            cases hent : lookupField fields "entries" with
            | none =>
                rw [hent] at hp
                injection hp with h
                rw [← h]
            | some w =>
                rw [hent] at hp
                dsimp only at hp
                cases hrec : parseRecordOf parseProviderDefinition w with
                | none =>
                    rw [hrec] at hp
                    exact absurd hp (by simp)
                | some ent =>
                    rw [hrec] at hp
                    injection hp with h
                    rw [← h]
  · intro hnone
    rw [buildProviders_policy, hnone]
    rfl

/-- Witness for the amended claim C8: a sectioned providers object carrying
the string cheapest parses, its policy is the cheapest enum value, and a
sectioned object without a policy yields a registry defaulting to first. -/
theorem c8_witness :
    parseProvidersSection (Json.obj [("policy", Json.str "cheapest")])
      = some { policy := some Policy.cheapest, entries := [] }
    ∧ (lookupField [("policy", Json.str "cheapest")] "policy" = none
        ∧ (some Policy.cheapest : Option Policy) = none
      ∨ ∃ p, lookupField [("policy", Json.str "cheapest")] "policy"
          = some (policyJson p)
        ∧ (some Policy.cheapest : Option Policy) = some p)
    ∧ (buildProviders ([] : List (String × ProviderDefinition)) none).policy
      = Policy.first := by
  have hp : parseProvidersSection (Json.obj [("policy", Json.str "cheapest")])
      = some { policy := some Policy.cheapest, entries := [] } := rfl
  have h := c8_policy [("policy", Json.str "cheapest")]
    { policy := some Policy.cheapest, entries := [] } hp
  have h2 := c8_policy ([] : List (String × Json))
    { policy := none, entries := [] } rfl
  exact ⟨hp, h.1, h2.2.2 rfl⟩

end Feather
